import Mathlib

/-!
# Verification of the query/lookup subsystem of the protected-auction key-value service

Shallow embedding of the query/lookup core:

* `LocalLookup` (`components/internal_server/local_lookup.cc`): `ProcessKeys`,
  `ProcessKeysetKeys`, `ProcessQuery` and the public `GetKeyValues`,
  `GetKeyValueSet`, `RunQuery` operations.
* The request handler (`components/data_server/request_handler/get_values_handler.cc`):
  `GetKeys`, `ProcessKeys` and `GetValuesHandler::GetValues`.
* The cache read contract consumed by both (point lookups and value-set lookups).
* The query engine's AST and evaluator, which live in `components/query` and are
  modelled from the specification where the translation needs them.

Machine integers play no role here; strings are `String`, hash sets are lists of
distinct elements in iteration order, hash maps are association lists, and
`absl::StatusOr` is an `Except` over a status value.  Metric-counter increments
and cache accesses are made observable as explicit event lists so that claims
about "exactly one batched call" or "one counter per group" can be stated.
-/

/-! ## absl status and StatusOr -/

/-- `absl::StatusCode::kOk`. -/
def kOk : Nat := 0

/-- `absl::StatusCode::kInvalidArgument`. -/
def kInvalidArgument : Nat := 3

/-- `absl::StatusCode::kNotFound`. -/
def kNotFound : Nat := 5

/-- `absl::StatusCode::kInternal`. -/
def kInternal : Nat := 13

/-- An `absl::Status`: a code and a message. -/
structure AbslStatus where
  code : Nat
  message : String
deriving DecidableEq, Repr

/-- `absl::OkStatus()`. -/
def okStatus : AbslStatus := { code := kOk, message := "" }

/-- `absl::StatusOr<T>`: a value, or a non-OK status. -/
abbrev StatusOr (α : Type) : Type := Except AbslStatus α

/-- The implicit conversion `absl::Status -> absl::StatusOr<T>`.  Per absl's
documented behavior (`StatusOrHelper::HandleInvalidStatusCtorArg`), an OK status
is not a valid constructor argument to `StatusOr<T>`: in optimized builds the
resulting `StatusOr` holds a `kInternal` error (in debug builds the program
aborts); it never holds a value. -/
def statusOrFromStatus {α : Type} (s : AbslStatus) : StatusOr α :=
  if s.code = kOk then
    Except.error
      { code := kInternal,
        message := "An OK status is not a valid constructor argument to StatusOr<T>" }
  else Except.error s

/-! ## The cache read contract (components/data_server/cache/cache.h) -/

/-- The in-memory cache: a point `key -> Value` mapping and a `key -> ValueSet`
mapping (a key absent from the value-set mapping has the empty list). -/
structure Cache where
  keyValue : String → Option String
  keyValueSet : String → List String

/-- `Cache::GetKeyValuePairs(context, keys)`: a hash map holding exactly the
requested keys that are present in the cache; absent keys are omitted, not an
error.  Modelled as an association list in the iteration order of the requested
keys. -/
def Cache.GetKeyValuePairs (cache : Cache) (keys : List String) :
    List (String × String) :=
  keys.filterMap fun k => (cache.keyValue k).map fun v => (k, v)

/-- The view object returned by `Cache::GetKeyValueSet(context, keys)` for a
hash-set argument: `GetValueSet(key)` yields the key's value-set for a requested
key and the empty sequence (not an error) otherwise. -/
def Cache.GetKeyValueSetView (cache : Cache) (keys : List String) :
    String → List String :=
  fun k => if k ∈ keys then cache.keyValueSet k else []

/-- The view object returned by `Cache::GetKeyValueSet(context, keys)` when the
requested keys come from an AST's key set. -/
def Cache.GetKeyValueSetViewK (cache : Cache) (keys : Finset String) :
    String → List String :=
  fun k => if k ∈ keys then cache.keyValueSet k else []

/-- `absl::flat_hash_map<…>::find` on the association-list model: the value
stored for `k`, or `none` when `find` returns `end()`. -/
def mapFind (k : String) : List (String × String) → Option String
  | [] => none
  | (a, v) :: rest => if a = k then some v else mapFind k rest

/-! ## Internal lookup protos (components/internal_server/lookup.proto) -/

/-- `kv_server.SingleLookupResult`: oneof a found value, a per-key status, or a
set of values found for a keyset key. -/
inductive SingleLookupResult
  | value (v : String)
  | status (code : Nat) (message : String)
  | keysetValues (values : List String)
deriving DecidableEq, Repr

/-- `kv_server.InternalLookupResponse`: the per-key result map, as an
association list in insertion order. -/
structure InternalLookupResponse where
  kvPairs : List (String × SingleLookupResult)
deriving DecidableEq, Repr

/-- `kv_server.InternalRunQueryResponse`: the flattened element sequence of the
evaluated query. -/
structure InternalRunQueryResponse where
  elements : List String
deriving DecidableEq, Repr

/-! ## Query engine (components/query), modelled from the spec -/

/-- Modelled from the spec: the Query AST built by the Parser
(`components/query` is not under `src/`).  A tree of set-operation nodes —
union, intersection, difference — whose leaves are key references. -/
inductive ASTNode
  | key (k : String)
  | union (left right : ASTNode)
  | intersection (left right : ASTNode)
  | difference (left right : ASTNode)
deriving DecidableEq, Repr

/-- Modelled from the spec: `Node::Keys()` — the set of leaf keys of the AST,
which is exactly the set of keys the evaluator must resolve from the cache. -/
def ASTNode.Keys : ASTNode → Finset String
  | .key k => {k}
  | .union l r => l.Keys ∪ r.Keys
  | .intersection l r => l.Keys ∪ r.Keys
  | .difference l r => l.Keys ∪ r.Keys

/-- Observable events of one `ProcessQuery` call: a batched cache value-set
fetch, or the evaluation of one AST node. -/
inductive QueryEvent
  | cacheGetKeyValueSet (keys : Finset String)
  | evalNode
deriving DecidableEq

/-- Whether a query event is a cache access. -/
def QueryEvent.isCacheCall : QueryEvent → Bool
  | .cacheGetKeyValueSet _ => true
  | .evalNode => false

/-- Modelled from the spec: post-order AST evaluation — UNION is set union,
INTERSECTION set intersection, DIFFERENCE left-minus-right; a leaf resolves its
key through the lookup callback bound by the Driver (the callback returns a
hash set, modelled as a duplicate-free enumeration).  The resulting sets are
modelled as duplicate-free lists in an unspecified enumeration order.
Alongside the resulting set, the evaluation emits one `evalNode` event per AST
node, so that the ordering of cache accesses and node evaluations is
observable. -/
def ASTNode.Eval (lookup : String → List String) :
    ASTNode → List String × List QueryEvent
  | .key k => ((lookup k).dedup, [.evalNode])
  | .union l r =>
      let lv := l.Eval lookup
      let rv := r.Eval lookup
      (lv.1 ∪ rv.1, lv.2 ++ rv.2 ++ [.evalNode])
  | .intersection l r =>
      let lv := l.Eval lookup
      let rv := r.Eval lookup
      (lv.1 ∩ rv.1, lv.2 ++ rv.2 ++ [.evalNode])
  | .difference l r =>
      let lv := l.Eval lookup
      let rv := r.Eval lookup
      (lv.1.diff rv.1, lv.2 ++ rv.2 ++ [.evalNode])

/-! ## LocalLookup (components/internal_server/local_lookup.cc) -/

namespace LocalLookup

/-- Counter name `kKeySetNotFound`. -/
def kKeySetNotFound : String := "KeysetNotFound"

/-- Latency metric name `kLocalRunQuery`. -/
def kLocalRunQuery : String := "LocalRunQuery"

/-- `LocalLookup::ProcessKeys`: empty key set short-circuits to an empty
response; otherwise one batched `GetKeyValuePairs` call, then one result per
requested key — the found value, or a `kNotFound` per-key status.  The
`flat_hash_set` argument is modelled as its iteration sequence (a list of
distinct keys). -/
def ProcessKeys (cache : Cache) (keys : List String) : InternalLookupResponse :=
  if keys = [] then { kvPairs := [] }
  else
    let kv_pairs := cache.GetKeyValuePairs keys
    { kvPairs :=
        keys.map fun key =>
          match mapFind key kv_pairs with
          | none => (key, SingleLookupResult.status kNotFound "Key not found")
          | some v => (key, SingleLookupResult.value v) }

/-- `LocalLookup::ProcessKeysetKeys`: empty key set short-circuits; otherwise
one batched `GetKeyValueSet` call, then one result per key — a `kNotFound`
per-key status plus a `kKeySetNotFound` counter increment when the key's
value-set is empty, else the elements of the value-set.  The second component
is the list of counter-increment events in program order. -/
def ProcessKeysetKeys (cache : Cache) (key_set : List String) :
    StatusOr InternalLookupResponse × List String :=
  if key_set = [] then (Except.ok { kvPairs := [] }, [])
  else
    let getValueSet := cache.GetKeyValueSetView key_set
    (Except.ok
      { kvPairs :=
          key_set.map fun key =>
            if getValueSet key = [] then
              (key, SingleLookupResult.status kNotFound "Key not found")
            else (key, SingleLookupResult.keysetValues (getValueSet key)) },
     (key_set.filter fun key => getValueSet key = []).map fun _ => kKeySetNotFound)

/-- `LocalLookup::ProcessQuery`: an empty query returns
`absl::OkStatus()` converted to a `StatusOr` (see `statusOrFromStatus`);
otherwise the query is parsed (the Scanner/Parser of `components/query` are
abstracted as a `parse` function to an optional AST root), a parse failure
returns an invalid-argument error, and on success the value-sets of the AST's
key set are fetched from the cache in a single batched call, after which the
Driver evaluates the AST over the fetched view.  The second component is the
event trace: cache accesses and node evaluations in program order. -/
def ProcessQuery (cache : Cache) (parse : String → Option ASTNode)
    (query : String) : StatusOr InternalRunQueryResponse × List QueryEvent :=
  if query = "" then (statusOrFromStatus okStatus, [])
  else
    match parse query with
    | none =>
        (Except.error { code := kInvalidArgument, message := "Parsing failure." }, [])
    | some root =>
        let get_key_value_set_result := cache.GetKeyValueSetViewK root.Keys
        let result := ASTNode.Eval get_key_value_set_result root
        (Except.ok { elements := result.1 },
         QueryEvent.cacheGetKeyValueSet root.Keys :: result.2)

/-- `LocalLookup::GetKeyValues`. -/
def GetKeyValues (cache : Cache) (keys : List String) :
    StatusOr InternalLookupResponse :=
  Except.ok (ProcessKeys cache keys)

/-- `LocalLookup::GetKeyValueSet`. -/
def GetKeyValueSet (cache : Cache) (key_set : List String) :
    StatusOr InternalLookupResponse × List String :=
  ProcessKeysetKeys cache key_set

/-- `LocalLookup::RunQuery`. -/
def RunQuery (cache : Cache) (parse : String → Option ASTNode) (query : String) :
    StatusOr InternalRunQueryResponse × List QueryEvent :=
  ProcessQuery cache parse query

end LocalLookup

/-! ## Request handler (components/data_server/request_handler/get_values_handler.cc) -/

namespace RequestHandler

/-- Counter name `kCacheKeyHit`. -/
def kCacheKeyHit : String := "CacheKeyHit"

/-- Counter name `kCacheKeyMiss`. -/
def kCacheKeyMiss : String := "CacheKeyMiss"

/-- Modelled from the spec: `kQueryArgDelimiter` (`public/constants.h` is not
under `src/`) — the query-argument delimiter on which each incoming key string
is split into individual keys. -/
def kQueryArgDelimiter : Char := ','

/-- `absl::StrSplit` on a character-list suffix: splitting keeps empty pieces,
and the empty input yields one empty piece. -/
def splitChars (d : Char) : List Char → List (List Char)
  | [] => [[]]
  | c :: rest =>
      match splitChars d rest with
      | [] => [[]]
      | cur :: done => if c = d then [] :: cur :: done else (c :: cur) :: done

/-- `absl::StrSplit(s, d)` for a single-character delimiter `d`. -/
def strSplit (d : Char) (s : String) : List String :=
  (splitChars d s.data).map List.asString

/-- A flattened model of a `google.protobuf.Value` produced by
`JsonStringToMessage` (an external protobuf utility); only the string case is
built by this handler itself, via `set_string_value`. -/
inductive ProtoValue
  | nullValue
  | numberValue (n : Int)
  | stringValue (s : String)
  | boolValue (b : Bool)
deriving DecidableEq, Repr

/-- `v1.V1SingleLookupResult`: oneof a per-key status or a decoded value. -/
inductive V1SingleLookupResult
  | status (code : Nat) (message : String)
  | value (v : ProtoValue)
deriving DecidableEq, Repr

/-- Observable events of the request handler: a counter increment or a batched
point-lookup cache access. -/
inductive RHEvent
  | counterIncrement (name : String)
  | cacheGetKeyValuePairs (keys : List String)
deriving DecidableEq, Repr

/-- Whether a request-handler event is a counter increment. -/
def RHEvent.isCounter : RHEvent → Bool
  | .counterIncrement _ => true
  | .cacheGetKeyValuePairs _ => false

/-- `GetKeys` (get_values_handler.cc): split every incoming key string on the
query-argument delimiter and insert each piece into a hash set — i.e. the
distinct individual keys.  The hash set is modelled as its iteration sequence,
a duplicate-free list. -/
def GetKeys (keys : List String) : List String :=
  (keys.flatMap fun key => strSplit kQueryArgDelimiter key).dedup

/-- The anonymous-namespace `ProcessKeys` of get_values_handler.cc: empty group
short-circuits; otherwise the incoming strings are split and deduplicated by
`GetKeys`, the cache is queried once for the resulting keys, the hit counter is
incremented when the returned map is non-empty and the miss counter when it is
empty, and then one result per individual key is produced — a `kNotFound`
per-key status, or the value decoded as a structured JSON value with fallback
to a plain string value when decoding fails.  `JsonStringToMessage` is
abstracted as the `decode` function.  The first component is the per-key
result map written into the caller's response section; the second is the event
list in program order. -/
def ProcessKeys (decode : String → Option ProtoValue) (cache : Cache)
    (keys : List String) :
    List (String × V1SingleLookupResult) × List RHEvent :=
  if keys = [] then ([], [])
  else
    let actual_keys := GetKeys keys
    let kv_pairs := cache.GetKeyValuePairs actual_keys
    let counter :=
      if kv_pairs = [] then RHEvent.counterIncrement kCacheKeyMiss
      else RHEvent.counterIncrement kCacheKeyHit
    (actual_keys.map fun key =>
      match mapFind key kv_pairs with
      | none => (key, V1SingleLookupResult.status kNotFound "Key not found")
      | some v =>
          match decode v with
          | some value_proto => (key, V1SingleLookupResult.value value_proto)
          | none => (key, V1SingleLookupResult.value (ProtoValue.stringValue v)),
     [RHEvent.cacheGetKeyValuePairs actual_keys, counter])

/-- `v1.GetValuesRequest`: the four named key groups of an inbound bulk
request. -/
structure GetValuesRequest where
  kvInternal : List String
  keys : List String
  renderUrls : List String
  adComponentRenderUrls : List String
deriving DecidableEq, Repr

/-- `v1.GetValuesResponse`: one per-key result section per request group. -/
structure GetValuesResponse where
  kvInternal : List (String × V1SingleLookupResult)
  keys : List (String × V1SingleLookupResult)
  renderUrls : List (String × V1SingleLookupResult)
  adComponentRenderUrls : List (String × V1SingleLookupResult)
deriving DecidableEq, Repr

/-- `grpc::Status` as returned by the handler. -/
inductive GrpcStatus
  | ok
  | error (code : Nat) (message : String)
deriving DecidableEq, Repr

/-- `GetValuesHandler::GetValues`: when the static `use_v2_` flag is set the
call is delegated to the v2 adapter (an external collaborator, abstracted as
the `adapter` function); otherwise each of the four named key groups is
empty-checked independently and, when non-empty, dispatched to `ProcessKeys`,
which writes only that group's section of the response.  The call returns
`grpc::Status::OK`.  The result is the status, the response (whose sections
start empty), and the concatenated event list. -/
def GetValues (use_v2 : Bool)
    (adapter : GetValuesRequest → GrpcStatus × GetValuesResponse)
    (decode : String → Option ProtoValue) (cache : Cache)
    (request : GetValuesRequest) :
    GrpcStatus × GetValuesResponse × List RHEvent :=
  if use_v2 then
    let r := adapter request
    (r.1, r.2, [])
  else
    let kvInternalPart :=
      if request.kvInternal = [] then ([], [])
      else ProcessKeys decode cache request.kvInternal
    let keysPart :=
      if request.keys = [] then ([], [])
      else ProcessKeys decode cache request.keys
    let renderUrlsPart :=
      if request.renderUrls = [] then ([], [])
      else ProcessKeys decode cache request.renderUrls
    let adComponentPart :=
      if request.adComponentRenderUrls = [] then ([], [])
      else ProcessKeys decode cache request.adComponentRenderUrls
    (GrpcStatus.ok,
     { kvInternal := kvInternalPart.1,
       keys := keysPart.1,
       renderUrls := renderUrlsPart.1,
       adComponentRenderUrls := adComponentPart.1 },
     kvInternalPart.2 ++ keysPart.2 ++ renderUrlsPart.2 ++ adComponentPart.2)

end RequestHandler

/-! ## Helper lemmas -/

/-- `mapFind` on pairs built from keys outside the key list is `none`. -/
theorem mapFind_pairs_of_not_mem (f : String → Option String) (l : List String)
    (k : String) (hk : k ∉ l) :
    mapFind k (l.filterMap fun x => (f x).map fun v => (x, v)) = none := by
  induction l with
  | nil => simp [mapFind]
  | cons a t ih =>
      have hka : k ≠ a := fun h => hk (h ▸ List.mem_cons_self a t)
      have hkt : k ∉ t := fun h => hk (List.mem_cons_of_mem a h)
      cases h : f a with
      | none => simpa [List.filterMap_cons, h] using ih hkt
      | some v =>
          simpa [List.filterMap_cons, h, mapFind, Ne.symm hka] using ih hkt

/-- `mapFind` on the pairs built from a duplicate-free key list returns the
stored value of any listed key. -/
theorem mapFind_pairs_of_mem (f : String → Option String) (l : List String)
    (k : String) (hnd : l.Nodup) (hk : k ∈ l) :
    mapFind k (l.filterMap fun x => (f x).map fun v => (x, v)) = f k := by
  induction l with
  | nil => cases hk
  | cons a t ih =>
      rcases List.nodup_cons.mp hnd with ⟨ha, hndt⟩
      rcases List.mem_cons.mp hk with hka | hkt
      · subst hka
        cases h : f k with
        | none =>
            simpa [List.filterMap_cons, h] using mapFind_pairs_of_not_mem f t k ha
        | some v => simp [List.filterMap_cons, h, mapFind]
      · have hka : k ≠ a := fun h => ha (h ▸ hkt)
        cases h : f a with
        | none => simpa [List.filterMap_cons, h] using ih hndt hkt
        | some v =>
            simpa [List.filterMap_cons, h, mapFind, Ne.symm hka] using ih hndt hkt

/-- `flat_hash_map::find` on a `GetKeyValuePairs` result gives exactly the
cache's point mapping on the requested keys. -/
theorem mapFind_GetKeyValuePairs (cache : Cache) (keys : List String)
    (k : String) (hnd : keys.Nodup) (hk : k ∈ keys) :
    mapFind k (cache.GetKeyValuePairs keys) = cache.keyValue k :=
  mapFind_pairs_of_mem (cache.keyValue) keys k hnd hk

/-- The `GetKeyValuePairs` map is empty exactly when no requested key is
present in the cache. -/
theorem getKeyValuePairs_eq_nil_iff (cache : Cache) (keys : List String) :
    cache.GetKeyValuePairs keys = [] ↔ ∀ k ∈ keys, cache.keyValue k = none := by
  simp [Cache.GetKeyValuePairs, List.filterMap_eq_nil_iff]

/-- Every event emitted by the AST evaluator is a node evaluation — the
evaluator itself performs no cache access. -/
theorem eval_events_are_evalNode (lookup : String → List String) (t : ASTNode) :
    ∀ e ∈ (ASTNode.Eval lookup t).2, e = QueryEvent.evalNode := by
  induction t with
  | key k => intro e he; simpa [ASTNode.Eval] using he
  | union l r ihl ihr =>
      intro e he
      simp only [ASTNode.Eval, List.mem_append, List.mem_singleton] at he
      rcases he with (h | h) | h
      · exact ihl e h
      · exact ihr e h
      · exact h
  | intersection l r ihl ihr =>
      intro e he
      simp only [ASTNode.Eval, List.mem_append, List.mem_singleton] at he
      rcases he with (h | h) | h
      · exact ihl e h
      · exact ihr e h
      · exact h
  | difference l r ihl ihr =>
      intro e he
      simp only [ASTNode.Eval, List.mem_append, List.mem_singleton] at he
      rcases he with (h | h) | h
      · exact ihl e h
      · exact ihr e h
      · exact h

/-- Counting a constant over a constant-mapped list gives its length. -/
theorem count_map_const (c : String) (l : List String) :
    ((l.map fun _ => c).count c) = l.length := by
  induction l with
  | nil => rfl
  | cons a t ih => simp [List.count_cons, ih]

/-- Mapping `Prod.fst` over per-key results keyed by the key list returns the
key list. -/
theorem map_fst_eq_self {β : Type} (l : List String) (f : String → String × β)
    (hf : ∀ k, (f k).1 = k) : (l.map f).map Prod.fst = l := by
  rw [List.map_map]
  calc l.map (Prod.fst ∘ f) = l.map id := List.map_congr_left fun a _ => hf a
    _ = l := List.map_id l

/-- The double empty-check in `GetValuesHandler::GetValues`: skipping an empty
group is the same as dispatching it to `ProcessKeys`, which also
short-circuits. -/
theorem processKeys_skip_empty (decode : String → Option RequestHandler.ProtoValue)
    (cache : Cache) (g : List String) :
    (if g = [] then (([] : List (String × RequestHandler.V1SingleLookupResult)),
        ([] : List RequestHandler.RHEvent))
     else RequestHandler.ProcessKeys decode cache g) =
      RequestHandler.ProcessKeys decode cache g := by
  by_cases h : g = [] <;> simp [h, RequestHandler.ProcessKeys]

/-- `GetValuesHandler::GetValues` on the direct (non-v2) path, reduced to its
four per-group dispatches. -/
theorem getValues_direct (adapter : RequestHandler.GetValuesRequest →
      RequestHandler.GrpcStatus × RequestHandler.GetValuesResponse)
    (decode : String → Option RequestHandler.ProtoValue) (cache : Cache)
    (request : RequestHandler.GetValuesRequest) :
    RequestHandler.GetValues false adapter decode cache request =
      (RequestHandler.GrpcStatus.ok,
       { kvInternal := (RequestHandler.ProcessKeys decode cache request.kvInternal).1,
         keys := (RequestHandler.ProcessKeys decode cache request.keys).1,
         renderUrls := (RequestHandler.ProcessKeys decode cache request.renderUrls).1,
         adComponentRenderUrls :=
           (RequestHandler.ProcessKeys decode cache request.adComponentRenderUrls).1 },
       (RequestHandler.ProcessKeys decode cache request.kvInternal).2 ++
         (RequestHandler.ProcessKeys decode cache request.keys).2 ++
         (RequestHandler.ProcessKeys decode cache request.renderUrls).2 ++
         (RequestHandler.ProcessKeys decode cache request.adComponentRenderUrls).2) := by
  unfold RequestHandler.GetValues
  rw [if_neg (by simp)]
  rw [processKeys_skip_empty, processKeys_skip_empty, processKeys_skip_empty,
    processKeys_skip_empty]

/-- The per-key result list built by `LocalLookup::ProcessKeys` on a non-empty
key set. -/
theorem localProcessKeys_kvPairs (cache : Cache) (keys : List String)
    (hne : keys ≠ []) :
    (LocalLookup.ProcessKeys cache keys).kvPairs =
      keys.map fun key =>
        match mapFind key (cache.GetKeyValuePairs keys) with
        | none => (key, SingleLookupResult.status kNotFound "Key not found")
        | some v => (key, SingleLookupResult.value v) := by
  simp [LocalLookup.ProcessKeys, hne]

/-! ## Claim theorems -/

/-- C1: the spec claims that a `RunQuery` call on the Local lookup with the
empty query string succeeds and yields an empty element sequence.  The code
instead executes `return absl::OkStatus();` in a function returning
`absl::StatusOr<InternalRunQueryResponse>`; that conversion never produces a
value (per absl, an OK status is not a valid `StatusOr` constructor argument),
so the call returns a `kInternal` error — and aborts in debug builds.  This
theorem evaluates the embedded code at the failing input: the result is an
error, not a success with empty elements. -/
theorem runQuery_empty_query_returns_internal_error
    (cache : Cache) (parse : String → Option ASTNode) :
    (LocalLookup.RunQuery cache parse "").1 =
      Except.error
        { code := kInternal,
          message := "An OK status is not a valid constructor argument to StatusOr<T>" } ∧
    (∀ resp, (LocalLookup.RunQuery cache parse "").1 ≠ Except.ok resp) ∧
    (LocalLookup.RunQuery cache parse "").2 = [] := by
  refine ⟨?_, ?_, ?_⟩
  · simp [LocalLookup.RunQuery, LocalLookup.ProcessQuery, statusOrFromStatus,
      okStatus, kOk]
  · intro resp h
    simp [LocalLookup.RunQuery, LocalLookup.ProcessQuery, statusOrFromStatus,
      okStatus, kOk] at h
  · simp [LocalLookup.RunQuery, LocalLookup.ProcessQuery]

/-- C2: for every non-empty query string that parses successfully, `RunQuery`
on the Local lookup performs exactly one batched cache `GetKeyValueSet` call,
whose argument is exactly the leaf-key set extracted from the parsed AST; that
call is the first event of the trace, so it happens after parsing completes and
before any AST node is evaluated, and every subsequent event is a node
evaluation over the already-fetched view — the evaluator never queries the
cache per AST node. -/
theorem runQuery_single_batched_cache_fetch
    (cache : Cache) (parse : String → Option ASTNode) (query : String)
    (root : ASTNode) (hq : query ≠ "") (hp : parse query = some root) :
    (LocalLookup.RunQuery cache parse query).2 =
      QueryEvent.cacheGetKeyValueSet root.Keys ::
        (ASTNode.Eval (cache.GetKeyValueSetViewK root.Keys) root).2 ∧
    (∀ e ∈ (ASTNode.Eval (cache.GetKeyValueSetViewK root.Keys) root).2,
        e = QueryEvent.evalNode) ∧
    (LocalLookup.RunQuery cache parse query).2.countP QueryEvent.isCacheCall = 1 := by
  have htrace : (LocalLookup.RunQuery cache parse query).2 =
      QueryEvent.cacheGetKeyValueSet root.Keys ::
        (ASTNode.Eval (cache.GetKeyValueSetViewK root.Keys) root).2 := by
    simp [LocalLookup.RunQuery, LocalLookup.ProcessQuery, hq, hp]
  refine ⟨htrace, eval_events_are_evalNode _ _, ?_⟩
  rw [htrace, List.countP_cons]
  have hzero : (ASTNode.Eval (cache.GetKeyValueSetViewK root.Keys) root).2.countP
      QueryEvent.isCacheCall = 0 := by
    refine List.countP_eq_zero.mpr fun e he => ?_
    rw [eval_events_are_evalNode _ _ e he]
    simp [QueryEvent.isCacheCall]
  simp [hzero, QueryEvent.isCacheCall]

/-- Witness for C2 at the query string "a" parsed to the single leaf `a`. -/
theorem runQuery_single_batched_cache_fetch_witness :
    ("a" : String) ≠ "" ∧
    (fun q => if q = "a" then some (ASTNode.key "a") else none) "a" =
      some (ASTNode.key "a") ∧
    (LocalLookup.RunQuery ⟨fun _ => none, fun _ => []⟩
        (fun q => if q = "a" then some (ASTNode.key "a") else none) "a").2.countP
      QueryEvent.isCacheCall = 1 :=
  ⟨by decide, by decide,
    (runQuery_single_batched_cache_fetch ⟨fun _ => none, fun _ => []⟩
      (fun q => if q = "a" then some (ASTNode.key "a") else none) "a"
      (ASTNode.key "a") (by decide) (by decide)).2.2⟩

/-- C3: for every non-empty key set passed to the Local lookup's
`GetKeyValues`, the call returns a successful response with exactly one entry
per requested key — the cached value when the key is present, a per-key
`kNotFound` status when it is absent — and an absent key never makes the call
itself fail. -/
theorem getKeyValues_per_key_results
    (cache : Cache) (keys : List String) (hne : keys ≠ []) (hnd : keys.Nodup) :
    ∃ resp, LocalLookup.GetKeyValues cache keys = Except.ok resp ∧
      resp.kvPairs.map Prod.fst = keys ∧
      (∀ k ∈ keys, cache.keyValue k = none →
        (k, SingleLookupResult.status kNotFound "Key not found") ∈ resp.kvPairs) ∧
      (∀ k v, k ∈ keys → cache.keyValue k = some v →
        (k, SingleLookupResult.value v) ∈ resp.kvPairs) := by
  refine ⟨LocalLookup.ProcessKeys cache keys, rfl, ?_, ?_, ?_⟩
  · rw [localProcessKeys_kvPairs cache keys hne]
    apply map_fst_eq_self
    intro k
    cases mapFind k (cache.GetKeyValuePairs keys) <;> rfl
  · intro k hk hnone
    rw [localProcessKeys_kvPairs cache keys hne]
    have hf : mapFind k (cache.GetKeyValuePairs keys) = none := by
      rw [mapFind_GetKeyValuePairs cache keys k hnd hk, hnone]
    refine List.mem_map.mpr ⟨k, hk, ?_⟩
    simp [hf]
  · intro k v hk hsome
    rw [localProcessKeys_kvPairs cache keys hne]
    have hf : mapFind k (cache.GetKeyValuePairs keys) = some v := by
      rw [mapFind_GetKeyValuePairs cache keys k hnd hk, hsome]
    refine List.mem_map.mpr ⟨k, hk, ?_⟩
    simp [hf]

/-- Witness for C3: keys `k1` (present, value `v1`) and `k2` (absent). -/
theorem getKeyValues_per_key_results_witness :
    (["k1", "k2"] : List String) ≠ [] ∧ (["k1", "k2"] : List String).Nodup ∧
    (∃ resp, LocalLookup.GetKeyValues
        ⟨fun k => if k = "k1" then some "v1" else none, fun _ => []⟩
        ["k1", "k2"] = Except.ok resp ∧
      resp.kvPairs.map Prod.fst = ["k1", "k2"] ∧
      (∀ k ∈ (["k1", "k2"] : List String),
        (fun k => if k = "k1" then some "v1" else none : String → Option String) k
            = none →
        (k, SingleLookupResult.status kNotFound "Key not found") ∈ resp.kvPairs) ∧
      (∀ k v, k ∈ (["k1", "k2"] : List String) →
        (fun k => if k = "k1" then some "v1" else none : String → Option String) k
            = some v →
        (k, SingleLookupResult.value v) ∈ resp.kvPairs)) :=
  ⟨by decide, by decide,
    getKeyValues_per_key_results
      ⟨fun k => if k = "k1" then some "v1" else none, fun _ => []⟩
      ["k1", "k2"] (by decide) (by decide)⟩

/-- C4: for every query string on which the parser fails, `RunQuery` on the
Local lookup returns an invalid-argument error, and the event trace is empty —
no cache lookup and no AST evaluation takes place for that call. -/
theorem runQuery_parse_failure_invalid_argument
    (cache : Cache) (parse : String → Option ASTNode) (query : String)
    (hq : query ≠ "") (hp : parse query = none) :
    (LocalLookup.RunQuery cache parse query).1 =
      Except.error { code := kInvalidArgument, message := "Parsing failure." } ∧
    (LocalLookup.RunQuery cache parse query).2 = [] := by
  constructor <;> simp [LocalLookup.RunQuery, LocalLookup.ProcessQuery, hq, hp]

/-- Witness for C4 at the malformed query "((" with a parser rejecting
everything. -/
theorem runQuery_parse_failure_invalid_argument_witness :
    ("((" : String) ≠ "" ∧
    (fun _ : String => (none : Option ASTNode)) "((" = none ∧
    ((LocalLookup.RunQuery ⟨fun _ => none, fun _ => []⟩
        (fun _ => none) "((").1 =
      Except.error { code := kInvalidArgument, message := "Parsing failure." } ∧
    (LocalLookup.RunQuery ⟨fun _ => none, fun _ => []⟩
        (fun _ => none) "((").2 = []) :=
  ⟨by decide, rfl,
    runQuery_parse_failure_invalid_argument ⟨fun _ => none, fun _ => []⟩
      (fun _ => none) "((" (by decide) rfl⟩

/-- The event list of the request handler's `ProcessKeys` on a non-empty
group. -/
theorem rhProcessKeys_events (decode : String → Option RequestHandler.ProtoValue)
    (cache : Cache) (keys : List String) (hne : keys ≠ []) :
    (RequestHandler.ProcessKeys decode cache keys).2 =
      [RequestHandler.RHEvent.cacheGetKeyValuePairs (RequestHandler.GetKeys keys),
       if cache.GetKeyValuePairs (RequestHandler.GetKeys keys) = [] then
         RequestHandler.RHEvent.counterIncrement RequestHandler.kCacheKeyMiss
       else RequestHandler.RHEvent.counterIncrement RequestHandler.kCacheKeyHit] := by
  simp only [RequestHandler.ProcessKeys, if_neg hne]

/-- C5: for every non-empty key group processed by the request handler,
exactly one counter is incremented for the group — the hit counter when at
least one requested key resolved to a value, the miss counter when none
did. -/
theorem processKeys_exactly_one_counter
    (decode : String → Option RequestHandler.ProtoValue) (cache : Cache)
    (keys : List String) (hne : keys ≠ []) :
    ∃ c, (RequestHandler.ProcessKeys decode cache keys).2 =
        [RequestHandler.RHEvent.cacheGetKeyValuePairs (RequestHandler.GetKeys keys),
         RequestHandler.RHEvent.counterIncrement c] ∧
      (RequestHandler.ProcessKeys decode cache keys).2.countP
        RequestHandler.RHEvent.isCounter = 1 ∧
      ((∃ k ∈ RequestHandler.GetKeys keys, ∃ v, cache.keyValue k = some v) →
        c = RequestHandler.kCacheKeyHit) ∧
      ((∀ k ∈ RequestHandler.GetKeys keys, cache.keyValue k = none) →
        c = RequestHandler.kCacheKeyMiss) := by
  have hEv := rhProcessKeys_events decode cache keys hne
  by_cases hkv : cache.GetKeyValuePairs (RequestHandler.GetKeys keys) = []
  · refine ⟨RequestHandler.kCacheKeyMiss, ?_, ?_, ?_, fun _ => rfl⟩
    · rw [hEv]; simp [hkv]
    · rw [hEv]; simp [hkv, RequestHandler.RHEvent.isCounter]
    · rintro ⟨k, hk, v, hv⟩
      exact absurd hv (by simp [(getKeyValuePairs_eq_nil_iff cache _).mp hkv k hk])
  · refine ⟨RequestHandler.kCacheKeyHit, ?_, ?_, fun _ => rfl, ?_⟩
    · rw [hEv]; simp [hkv]
    · rw [hEv]; simp [hkv, RequestHandler.RHEvent.isCounter]
    · intro hall
      exact absurd ((getKeyValuePairs_eq_nil_iff cache _).mpr hall) hkv

/-- Witness for C5: the single group key `k1` resolves to `v1`, so the hit
counter is the one incremented. -/
theorem processKeys_exactly_one_counter_witness :
    (["k1"] : List String) ≠ [] ∧
    (∃ c, (RequestHandler.ProcessKeys (fun _ => none)
          ⟨fun k => if k = "k1" then some "v1" else none, fun _ => []⟩
          ["k1"]).2 =
        [RequestHandler.RHEvent.cacheGetKeyValuePairs
            (RequestHandler.GetKeys ["k1"]),
         RequestHandler.RHEvent.counterIncrement c] ∧
      (RequestHandler.ProcessKeys (fun _ => none)
          ⟨fun k => if k = "k1" then some "v1" else none, fun _ => []⟩
          ["k1"]).2.countP RequestHandler.RHEvent.isCounter = 1 ∧
      ((∃ k ∈ RequestHandler.GetKeys ["k1"], ∃ v,
          (fun k => if k = "k1" then some "v1" else none : String → Option String) k
            = some v) → c = RequestHandler.kCacheKeyHit) ∧
      ((∀ k ∈ RequestHandler.GetKeys ["k1"],
          (fun k => if k = "k1" then some "v1" else none : String → Option String) k
            = none) → c = RequestHandler.kCacheKeyMiss)) :=
  ⟨by decide,
    processKeys_exactly_one_counter (fun _ => none)
      ⟨fun k => if k = "k1" then some "v1" else none, fun _ => []⟩
      ["k1"] (by decide)⟩

/-- `LocalLookup::ProcessKeysetKeys` on a non-empty key set, reduced to its
per-key result list and counter events. -/
theorem processKeysetKeys_parts (cache : Cache) (key_set : List String)
    (hne : key_set ≠ []) :
    LocalLookup.ProcessKeysetKeys cache key_set =
      (Except.ok
        { kvPairs :=
            key_set.map fun key =>
              if cache.GetKeyValueSetView key_set key = [] then
                (key, SingleLookupResult.status kNotFound "Key not found")
              else
                (key, SingleLookupResult.keysetValues
                  (cache.GetKeyValueSetView key_set key)) },
       (key_set.filter fun key => cache.GetKeyValueSetView key_set key = []).map
         fun _ => LocalLookup.kKeySetNotFound) := by
  simp [LocalLookup.ProcessKeysetKeys, hne]

/-- C6: for every non-empty key set passed to the Local lookup's
`GetKeyValueSet`, the response holds one entry per requested key; a key with an
empty resolved value-set gets a `kNotFound` status and one `kKeySetNotFound`
counter increment, and a key with a non-empty value-set gets exactly the
elements of that set. -/
theorem getKeyValueSet_per_key_results
    (cache : Cache) (key_set : List String) (hne : key_set ≠ [])
    (hnd : key_set.Nodup) :
    ∃ resp events,
      LocalLookup.GetKeyValueSet cache key_set = (Except.ok resp, events) ∧
      resp.kvPairs.map Prod.fst = key_set ∧
      (resp.kvPairs.map Prod.fst).Nodup ∧
      (∀ k ∈ key_set, cache.keyValueSet k = [] →
        (k, SingleLookupResult.status kNotFound "Key not found") ∈ resp.kvPairs) ∧
      (∀ k ∈ key_set, cache.keyValueSet k ≠ [] →
        (k, SingleLookupResult.keysetValues (cache.keyValueSet k)) ∈ resp.kvPairs) ∧
      events.count LocalLookup.kKeySetNotFound =
        (key_set.filter fun k => cache.keyValueSet k = []).length := by
  have hview : ∀ k ∈ key_set, cache.GetKeyValueSetView key_set k =
      cache.keyValueSet k := by
    intro k hk; simp [Cache.GetKeyValueSetView, hk]
  have hmapfst : ((key_set.map fun key =>
      if cache.GetKeyValueSetView key_set key = [] then
        (key, SingleLookupResult.status kNotFound "Key not found")
      else
        (key, SingleLookupResult.keysetValues
          (cache.GetKeyValueSetView key_set key))).map Prod.fst) = key_set := by
    apply map_fst_eq_self
    intro k
    by_cases h : cache.GetKeyValueSetView key_set k = [] <;> simp [h]
  refine ⟨_, _, processKeysetKeys_parts cache key_set hne, hmapfst,
    by rw [hmapfst]; exact hnd, ?_, ?_, ?_⟩
  · intro k hk hkempty
    refine List.mem_map.mpr ⟨k, hk, ?_⟩
    simp [hview k hk, hkempty]
  · intro k hk hkne
    refine List.mem_map.mpr ⟨k, hk, ?_⟩
    simp [hview k hk, hkne]
  · rw [count_map_const]
    congr 1
    refine List.filter_congr fun k hk => ?_
    simp [hview k hk]

/-- Witness for C6: key set `a` (value-set `x`,`y`) and `b` (empty set). -/
theorem getKeyValueSet_per_key_results_witness :
    (["a", "b"] : List String) ≠ [] ∧ (["a", "b"] : List String).Nodup ∧
    (∃ resp events,
      LocalLookup.GetKeyValueSet
          ⟨fun _ => none, fun k => if k = "a" then ["x", "y"] else []⟩
          ["a", "b"] = (Except.ok resp, events) ∧
      resp.kvPairs.map Prod.fst = ["a", "b"] ∧
      (resp.kvPairs.map Prod.fst).Nodup ∧
      (∀ k ∈ (["a", "b"] : List String),
        (fun k => if k = "a" then ["x", "y"] else [] : String → List String) k
            = [] →
        (k, SingleLookupResult.status kNotFound "Key not found") ∈ resp.kvPairs) ∧
      (∀ k ∈ (["a", "b"] : List String),
        (fun k => if k = "a" then ["x", "y"] else [] : String → List String) k
            ≠ [] →
        (k, SingleLookupResult.keysetValues
          ((fun k => if k = "a" then ["x", "y"] else [] : String → List String) k))
          ∈ resp.kvPairs) ∧
      events.count LocalLookup.kKeySetNotFound =
        ((["a", "b"] : List String).filter fun k =>
          (fun k => if k = "a" then ["x", "y"] else [] : String → List String) k
            = []).length) :=
  ⟨by decide, by decide,
    getKeyValueSet_per_key_results
      ⟨fun _ => none, fun k => if k = "a" then ["x", "y"] else []⟩
      ["a", "b"] (by decide) (by decide)⟩

/-- C7: for every key `a` whose query `a UNION a` parses successfully,
evaluating it through `RunQuery` succeeds with a set of elements equal, as a
set, to `a`'s resolved value-set — union with self is idempotent. -/
theorem runQuery_union_self_idempotent
    (cache : Cache) (parse : String → Option ASTNode) (query : String)
    (a : String) (hq : query ≠ "")
    (hp : parse query = some (ASTNode.union (ASTNode.key a) (ASTNode.key a))) :
    ∃ resp, (LocalLookup.RunQuery cache parse query).1 = Except.ok resp ∧
      resp.elements.toFinset = (cache.keyValueSet a).toFinset := by
  have h1 : (LocalLookup.RunQuery cache parse query).1 =
      Except.ok { elements := (cache.keyValueSet a).dedup ∪
        (cache.keyValueSet a).dedup } := by
    simp [LocalLookup.RunQuery, LocalLookup.ProcessQuery, hq, hp, ASTNode.Eval,
      Cache.GetKeyValueSetViewK, ASTNode.Keys]
  refine ⟨_, h1, ?_⟩
  ext x
  simp [List.mem_toFinset, List.mem_union_iff, List.mem_dedup]

/-- Witness for C7 at the query "a UNION a" over the value-set
`a -> [x, y]`. -/
theorem runQuery_union_self_idempotent_witness :
    ("a UNION a" : String) ≠ "" ∧
    (fun q => if q = "a UNION a" then
        some (ASTNode.union (ASTNode.key "a") (ASTNode.key "a")) else none)
      "a UNION a" = some (ASTNode.union (ASTNode.key "a") (ASTNode.key "a")) ∧
    (∃ resp, (LocalLookup.RunQuery
        ⟨fun _ => none, fun k => if k = "a" then ["x", "y"] else []⟩
        (fun q => if q = "a UNION a" then
          some (ASTNode.union (ASTNode.key "a") (ASTNode.key "a")) else none)
        "a UNION a").1 = Except.ok resp ∧
      resp.elements.toFinset =
        ((fun k => if k = "a" then ["x", "y"] else [] : String → List String)
          "a").toFinset) :=
  ⟨by decide, by decide,
    runQuery_union_self_idempotent
      ⟨fun _ => none, fun k => if k = "a" then ["x", "y"] else []⟩
      (fun q => if q = "a UNION a" then
        some (ASTNode.union (ASTNode.key "a") (ASTNode.key "a")) else none)
      "a UNION a" "a" (by decide) (by decide)⟩

/-- The per-key result list built by the request handler's `ProcessKeys` on a
non-empty group. -/
theorem rhProcessKeys_entries (decode : String → Option RequestHandler.ProtoValue)
    (cache : Cache) (keys : List String) (hne : keys ≠ []) :
    (RequestHandler.ProcessKeys decode cache keys).1 =
      (RequestHandler.GetKeys keys).map fun key =>
        match mapFind key
            (cache.GetKeyValuePairs (RequestHandler.GetKeys keys)) with
        | none => (key, RequestHandler.V1SingleLookupResult.status kNotFound
            "Key not found")
        | some v =>
            match decode v with
            | some value_proto =>
                (key, RequestHandler.V1SingleLookupResult.value value_proto)
            | none => (key, RequestHandler.V1SingleLookupResult.value
                (RequestHandler.ProtoValue.stringValue v)) := by
  simp only [RequestHandler.ProcessKeys, if_neg hne]

/-- `ProcessKeys` on an empty group does nothing: no results, no cache access,
no counter. -/
theorem rhProcessKeys_nil (decode : String → Option RequestHandler.ProtoValue)
    (cache : Cache) :
    RequestHandler.ProcessKeys decode cache [] = ([], []) := by
  simp [RequestHandler.ProcessKeys]

/-- C8: for every value returned by the cache for a found key, the request
handler first attempts to decode it as a structured JSON value; when decoding
fails the value is placed in the response as an opaque string, and the
decoding failure is never surfaced to the caller — the handler's `GetValues`
returns OK. -/
theorem processKeys_decode_fallback_never_error
    (adapter : RequestHandler.GetValuesRequest →
      RequestHandler.GrpcStatus × RequestHandler.GetValuesResponse)
    (decode : String → Option RequestHandler.ProtoValue) (cache : Cache)
    (keys : List String) (k v : String)
    (hk : k ∈ RequestHandler.GetKeys keys)
    (hv : cache.keyValue k = some v) :
    ((k, match decode v with
        | some value_proto => RequestHandler.V1SingleLookupResult.value value_proto
        | none => RequestHandler.V1SingleLookupResult.value
            (RequestHandler.ProtoValue.stringValue v)) ∈
      (RequestHandler.ProcessKeys decode cache keys).1) ∧
    (decode v = none →
      (k, RequestHandler.V1SingleLookupResult.value
          (RequestHandler.ProtoValue.stringValue v)) ∈
        (RequestHandler.ProcessKeys decode cache keys).1) ∧
    (∀ request, (RequestHandler.GetValues false adapter decode cache request).1 =
      RequestHandler.GrpcStatus.ok) := by
  have hne : keys ≠ [] := by
    intro h
    subst h
    simp [RequestHandler.GetKeys] at hk
  have hnd : (RequestHandler.GetKeys keys).Nodup := List.nodup_dedup _
  have hf : mapFind k (cache.GetKeyValuePairs (RequestHandler.GetKeys keys)) =
      some v := by
    rw [mapFind_GetKeyValuePairs cache _ k hnd hk, hv]
  have hmem : (k, match decode v with
      | some value_proto => RequestHandler.V1SingleLookupResult.value value_proto
      | none => RequestHandler.V1SingleLookupResult.value
          (RequestHandler.ProtoValue.stringValue v)) ∈
      (RequestHandler.ProcessKeys decode cache keys).1 := by
    rw [rhProcessKeys_entries decode cache keys hne]
    refine List.mem_map.mpr ⟨k, hk, ?_⟩
    rw [hf]
    cases hd : decode v <;> simp [hd]
  refine ⟨hmem, fun hdn => ?_, fun request => by rw [getValues_direct]⟩
  rw [hdn] at hmem
  exact hmem

/-- Witness for C8: the cached value `v1` is not decodable JSON, so it lands in
the response as an opaque string and the call still succeeds. -/
theorem processKeys_decode_fallback_never_error_witness :
    ("k1" : String) ∈ RequestHandler.GetKeys ["k1"] ∧
    (fun k => if k = "k1" then some "v1" else none : String → Option String) "k1"
      = some "v1" ∧
    (((("k1" : String), match (fun _ : String =>
            (none : Option RequestHandler.ProtoValue)) "v1" with
        | some value_proto => RequestHandler.V1SingleLookupResult.value value_proto
        | none => RequestHandler.V1SingleLookupResult.value
            (RequestHandler.ProtoValue.stringValue "v1")) ∈
      (RequestHandler.ProcessKeys (fun _ => none)
        ⟨fun k => if k = "k1" then some "v1" else none, fun _ => []⟩ ["k1"]).1) ∧
    ((fun _ : String => (none : Option RequestHandler.ProtoValue)) "v1" = none →
      (("k1" : String), RequestHandler.V1SingleLookupResult.value
          (RequestHandler.ProtoValue.stringValue "v1")) ∈
        (RequestHandler.ProcessKeys (fun _ => none)
          ⟨fun k => if k = "k1" then some "v1" else none, fun _ => []⟩ ["k1"]).1) ∧
    (∀ request, (RequestHandler.GetValues false
        (fun _ => (RequestHandler.GrpcStatus.ok,
          RequestHandler.GetValuesResponse.mk [] [] [] []))
        (fun _ => none)
        ⟨fun k => if k = "k1" then some "v1" else none, fun _ => []⟩ request).1 =
      RequestHandler.GrpcStatus.ok)) :=
  ⟨by decide, by decide,
    processKeys_decode_fallback_never_error
      (fun _ => (RequestHandler.GrpcStatus.ok,
        RequestHandler.GetValuesResponse.mk [] [] [] []))
      (fun _ => none)
      ⟨fun k => if k = "k1" then some "v1" else none, fun _ => []⟩
      ["k1"] "k1" "v1" (by decide) (by decide)⟩

/-- C9: on the direct path the call succeeds; each of the four named key
groups is empty-checked independently — an empty group contributes no cache
lookup, no counter increment and leaves its (initially empty) response section
empty — and each group's response section depends only on that group's keys,
so processing one group leaves the other sections unchanged. -/
theorem getValues_group_isolation
    (adapter : RequestHandler.GetValuesRequest →
      RequestHandler.GrpcStatus × RequestHandler.GetValuesResponse)
    (decode : String → Option RequestHandler.ProtoValue) (cache : Cache)
    (request : RequestHandler.GetValuesRequest) :
    ((RequestHandler.GetValues false adapter decode cache request).1 =
      RequestHandler.GrpcStatus.ok) ∧
    ((RequestHandler.GetValues false adapter decode cache request).2.2 =
      (RequestHandler.ProcessKeys decode cache request.kvInternal).2 ++
        (RequestHandler.ProcessKeys decode cache request.keys).2 ++
        (RequestHandler.ProcessKeys decode cache request.renderUrls).2 ++
        (RequestHandler.ProcessKeys decode cache request.adComponentRenderUrls).2) ∧
    (request.kvInternal = [] →
      (RequestHandler.GetValues false adapter decode cache request).2.1.kvInternal
          = [] ∧
      (RequestHandler.ProcessKeys decode cache request.kvInternal).2 = []) ∧
    (request.keys = [] →
      (RequestHandler.GetValues false adapter decode cache request).2.1.keys = [] ∧
      (RequestHandler.ProcessKeys decode cache request.keys).2 = []) ∧
    (request.renderUrls = [] →
      (RequestHandler.GetValues false adapter decode cache request).2.1.renderUrls
          = [] ∧
      (RequestHandler.ProcessKeys decode cache request.renderUrls).2 = []) ∧
    (request.adComponentRenderUrls = [] →
      (RequestHandler.GetValues false adapter decode cache
          request).2.1.adComponentRenderUrls = [] ∧
      (RequestHandler.ProcessKeys decode cache
          request.adComponentRenderUrls).2 = []) ∧
    (∀ request2 : RequestHandler.GetValuesRequest,
      request2.kvInternal = request.kvInternal →
      (RequestHandler.GetValues false adapter decode cache request2).2.1.kvInternal =
        (RequestHandler.GetValues false adapter decode cache request).2.1.kvInternal) ∧
    (∀ request2 : RequestHandler.GetValuesRequest,
      request2.keys = request.keys →
      (RequestHandler.GetValues false adapter decode cache request2).2.1.keys =
        (RequestHandler.GetValues false adapter decode cache request).2.1.keys) ∧
    (∀ request2 : RequestHandler.GetValuesRequest,
      request2.renderUrls = request.renderUrls →
      (RequestHandler.GetValues false adapter decode cache request2).2.1.renderUrls =
        (RequestHandler.GetValues false adapter decode cache request).2.1.renderUrls) ∧
    (∀ request2 : RequestHandler.GetValuesRequest,
      request2.adComponentRenderUrls = request.adComponentRenderUrls →
      (RequestHandler.GetValues false adapter decode cache
          request2).2.1.adComponentRenderUrls =
        (RequestHandler.GetValues false adapter decode cache
          request).2.1.adComponentRenderUrls) := by
  refine ⟨?_, ?_, ?_, ?_, ?_, ?_, ?_, ?_, ?_, ?_⟩
  · rw [getValues_direct]
  · rw [getValues_direct]
  · intro h
    rw [getValues_direct]
    exact ⟨by simp [h, rhProcessKeys_nil], by simp [h, rhProcessKeys_nil]⟩
  · intro h
    rw [getValues_direct]
    exact ⟨by simp [h, rhProcessKeys_nil], by simp [h, rhProcessKeys_nil]⟩
  · intro h
    rw [getValues_direct]
    exact ⟨by simp [h, rhProcessKeys_nil], by simp [h, rhProcessKeys_nil]⟩
  · intro h
    rw [getValues_direct]
    exact ⟨by simp [h, rhProcessKeys_nil], by simp [h, rhProcessKeys_nil]⟩
  · intro request2 h2
    rw [getValues_direct, getValues_direct]
    simp [h2]
  · intro request2 h2
    rw [getValues_direct, getValues_direct]
    simp [h2]
  · intro request2 h2
    rw [getValues_direct, getValues_direct]
    simp [h2]
  · intro request2 h2
    rw [getValues_direct, getValues_direct]
    simp [h2]

/-- C10: for every non-empty key group, the request handler splits each
incoming key string on the query-argument delimiter and deduplicates the
pieces before the cache lookup: the batched cache call receives the distinct
split keys, and the response map is keyed by exactly those keys, each
appearing exactly once. -/
theorem processKeys_response_keyed_by_split_keys
    (decode : String → Option RequestHandler.ProtoValue) (cache : Cache)
    (keys : List String) (hne : keys ≠ []) :
    ((RequestHandler.ProcessKeys decode cache keys).1.map Prod.fst =
      RequestHandler.GetKeys keys) ∧
    ((RequestHandler.ProcessKeys decode cache keys).1.map Prod.fst).Nodup ∧
    (∀ k, k ∈ (RequestHandler.ProcessKeys decode cache keys).1.map Prod.fst ↔
      ∃ s ∈ keys,
        k ∈ RequestHandler.strSplit RequestHandler.kQueryArgDelimiter s) ∧
    (∃ rest, (RequestHandler.ProcessKeys decode cache keys).2 =
      RequestHandler.RHEvent.cacheGetKeyValuePairs (RequestHandler.GetKeys keys)
        :: rest) := by
  have hfst : (RequestHandler.ProcessKeys decode cache keys).1.map Prod.fst =
      RequestHandler.GetKeys keys := by
    rw [rhProcessKeys_entries decode cache keys hne]
    apply map_fst_eq_self
    intro k
    cases mapFind k (cache.GetKeyValuePairs (RequestHandler.GetKeys keys)) with
    | none => rfl
    | some v => cases hd : decode v <;> simp [hd]
  refine ⟨hfst, ?_, ?_, ?_⟩
  · rw [hfst]
    exact List.nodup_dedup _
  · intro k
    rw [hfst]
    simp [RequestHandler.GetKeys, List.mem_dedup, List.mem_flatMap]
  · rw [rhProcessKeys_events decode cache keys hne]
    exact ⟨_, rfl⟩

/-- Witness for C10: the group `[a,b , b]` is split into distinct keys `a`,
`b`. -/
theorem processKeys_response_keyed_by_split_keys_witness :
    (["a,b", "b"] : List String) ≠ [] ∧
    (((RequestHandler.ProcessKeys (fun _ => none) ⟨fun _ => none, fun _ => []⟩
        ["a,b", "b"]).1.map Prod.fst = RequestHandler.GetKeys ["a,b", "b"]) ∧
    ((RequestHandler.ProcessKeys (fun _ => none) ⟨fun _ => none, fun _ => []⟩
        ["a,b", "b"]).1.map Prod.fst).Nodup ∧
    (∀ k, k ∈ (RequestHandler.ProcessKeys (fun _ => none)
        ⟨fun _ => none, fun _ => []⟩ ["a,b", "b"]).1.map Prod.fst ↔
      ∃ s ∈ (["a,b", "b"] : List String),
        k ∈ RequestHandler.strSplit RequestHandler.kQueryArgDelimiter s) ∧
    (∃ rest, (RequestHandler.ProcessKeys (fun _ => none)
        ⟨fun _ => none, fun _ => []⟩ ["a,b", "b"]).2 =
      RequestHandler.RHEvent.cacheGetKeyValuePairs
          (RequestHandler.GetKeys ["a,b", "b"]) :: rest)) :=
  ⟨by decide,
    processKeys_response_keyed_by_split_keys (fun _ => none)
      ⟨fun _ => none, fun _ => []⟩ ["a,b", "b"] (by decide)⟩
